import Mathlib

/-!
# SOCKS4 proxy example: handshake and relay

A shallow embedding of `proxy-server.go`.  Connections are the environment:
each connection is given by the results its successive `Read` and `Write`
calls return, and every function of the program is a function from those
results to the list of calls it performs (its trace) and what it returns.
-/

namespace SocksProxy

/-! ## Data model -/

/-- One octet. -/
abbrev Byte := Fin 256

/-- The constant `ECHO_BUFFER_BYTES`. -/
def ECHO_BUFFER_BYTES : Nat := 1024

/-- The constant `CONNECT_TIMEOUT`, `30 * time.Second`, in nanoseconds. -/
def CONNECT_TIMEOUT : Nat := 30 * 1000000000

/-- The constant `COMMAND_STREAM`. -/
def COMMAND_STREAM : Byte := 0x01

/-- The constant `COMMAND_BIND`. -/
def COMMAND_BIND : Byte := 0x02

/-- The constant `STATUS_SUCCESS`. -/
def STATUS_SUCCESS : Byte := 0x5a

/-- The constant `STATUS_FAILURE`. -/
def STATUS_FAILURE : Byte := 0x5b

/-- The struct `Socks4ClientRequest`; `Port` is a `uint16`. -/
structure Socks4ClientRequest where
  Version : Byte
  Command : Byte
  Port : Nat
  Address : Byte × Byte × Byte × Byte
  deriving DecidableEq, Repr

/-- The struct `Socks4ServerResponse`; `Ignored` is a `[6]uint8`. -/
structure Socks4ServerResponse where
  Null : Byte
  Status : Byte
  Ignored : List Byte
  deriving DecidableEq, Repr

/-- Values of Go's `error` other than `nil`: the two sentinels `io.ReadFull`
tells apart, and any other error, carried by the text of its `Error()`. -/
inductive GoError where
  | EOF
  | ErrUnexpectedEOF
  | other (text : String)
  deriving DecidableEq, Repr

/-- The method `Error()`. -/
def GoError.Error : GoError → String
  | .EOF => "EOF"
  | .ErrUnexpectedEOF => "unexpected EOF"
  | .other text => text

/-- What one call of `conn.Read(p)` returns: the `n` bytes it stored at the
start of `p`, and its `err` (`none` for `nil`). -/
structure ReadResult where
  data : List Byte
  err : Option GoError
  deriving DecidableEq, Repr

/-- The two connections of one handler. -/
inductive ConnId where
  | client
  | server
  deriving DecidableEq, Repr

/-- A connection as the handler sees it: `reads` are the results of the `Read`
calls still to come, in order (when none is left the next `Read` never
returns); `writes i` is the `err` of the `i`-th `Write` call still to come. -/
structure Transport where
  reads : List ReadResult
  writes : Nat → Option GoError

/-- The calls a handler makes on the outside world. -/
inductive Event where
  | stdout (text : String)
  | read (c : ConnId) (cap : Nat) (r : ReadResult)
  | write (c : ConnId) (p : List Byte) (err : Option GoError)
  | close (c : ConnId)
  | dial (network : String) (address : String) (timeout : Nat) (err : Option GoError)
  | wgAdd (delta : Nat)
  | go (to_read : ConnId) (to_write : ConnId)
  | wgDone
  | wgWait
  deriving DecidableEq, Repr

/-- `conn.Read(p)` with `len(p) = cap`, answered by the environment's next
result `r`: a `Read` stores at most `len(p)` bytes. -/
def connRead (cap : Nat) (r : ReadResult) : ReadResult :=
  { data := r.data.take cap, err := r.err }

/-- The writes of a transport after its first `Write` call. -/
def afterWrite (writes : Nat → Option GoError) : Nat → Option GoError :=
  fun i => writes (i + 1)

/-- A sequence of `Read` calls on one connection: the calls made, what they
yield (`none` when a `Read` never returns), and the results left unread. -/
structure ReadRun (α : Type) where
  trace : List Event
  result : Option α
  rest : List ReadResult

/-! ## Library calls: `io.ReadFull`, `binary.Read`, `binary.Write` -/

/-- The loop of `io.ReadAtLeast(r, buf, min)`,
`for n < min && err == nil { nn, err = r.Read(buf[n:]); n += nn }`,
with `got` the `n` bytes stored so far; it yields the bytes stored and the
last `err`. -/
def readAtLeastLoop (c : ConnId) (min : Nat) :
    List ReadResult → List Byte → ReadRun (List Byte × Option GoError)
  | [], got =>
    if got.length < min then ⟨[], none, []⟩ else ⟨[], some (got, none), []⟩
  | r :: rest, got =>
    if got.length < min then
      let p := connRead (min - got.length) r
      match p.err with
      | some e => ⟨[.read c (min - got.length) p], some (got ++ p.data, some e), rest⟩
      | none =>
        let run := readAtLeastLoop c min rest (got ++ p.data)
        ⟨.read c (min - got.length) p :: run.trace, run.result, run.rest⟩
    else ⟨[], some (got, none), r :: rest⟩

/-- The call `io.ReadFull(r, buf)` with `len(buf) = size`: `io.ReadAtLeast`
with `min = len(buf)`, whose `err` is `nil` once `n >= min`, and
`ErrUnexpectedEOF` for an `EOF` after some bytes. -/
def readFull (c : ConnId) (size : Nat) (script : List ReadResult) :
    ReadRun (List Byte × Option GoError) :=
  let run := readAtLeastLoop c size script []
  match run.result with
  | none => run
  | some (got, err) =>
    if size ≤ got.length then ⟨run.trace, some (got, none), run.rest⟩
    else if 0 < got.length ∧ err = some .EOF then
      ⟨run.trace, some (got, some .ErrUnexpectedEOF), run.rest⟩
    else ⟨run.trace, some (got, err), run.rest⟩

/-- The method `binary.BigEndian.Uint16`: `uint16(b[1]) | uint16(b[0])<<8`. -/
def bigEndianUint16 (hi lo : Byte) : Nat :=
  (lo.val ||| (hi.val <<< 8)) % 2 ^ 16

/-- Decoding of the 8 bytes of a `Socks4ClientRequest` in big-endian order,
field by field; `bs` is the buffer `io.ReadFull` filled (zero where nothing was
stored). -/
def decodeRequest (bs : List Byte) : Socks4ClientRequest :=
  { Version := bs.getD 0 0
    Command := bs.getD 1 0
    Port := bigEndianUint16 (bs.getD 2 0) (bs.getD 3 0)
    Address := (bs.getD 4 0, bs.getD 5 0, bs.getD 6 0, bs.getD 7 0) }

/-- The call `binary.Read(conn, binary.BigEndian, &request)`: `io.ReadFull` of
the 8 bytes of the struct, its error if any, else the decoded struct. -/
def binaryRead (c : ConnId) (script : List ReadResult) :
    ReadRun (Except GoError Socks4ClientRequest) :=
  let run := readFull c 8 script
  match run.result with
  | none => ⟨run.trace, none, run.rest⟩
  | some (_, some e) => ⟨run.trace, some (.error e), run.rest⟩
  | some (bs, none) => ⟨run.trace, some (.ok (decodeRequest bs)), run.rest⟩

/-- Encoding of a `Socks4ServerResponse`: its 8 bytes, field by field. -/
def encodeResponse (r : Socks4ServerResponse) : List Byte :=
  [r.Null, r.Status] ++ r.Ignored

/-! ## The program -/

/-- The loop of `readUntilNul`, `for char_buffer[0] != 0 { ... }`, with `ch`
the content of `char_buffer[0]`. -/
def readUntilNulLoop (c : ConnId) : List ReadResult → Byte → ReadRun (Option GoError)
  | [], ch => if ch ≠ 0 then ⟨[], none, []⟩ else ⟨[], some none, []⟩
  | r :: rest, ch =>
    if ch ≠ 0 then
      let p := connRead 1 r
      match p.err with
      | some e => ⟨[.read c 1 p], some (some e), rest⟩
      | none =>
        if p.data.length = 0 then
          ⟨[.read c 1 p], some (some (.other "Read zero bytes from connection")), rest⟩
        else
          let run := readUntilNulLoop c rest (p.data.headD ch)
          ⟨.read c 1 p :: run.trace, run.result, run.rest⟩
    else ⟨[], some none, r :: rest⟩

/-- The function `readUntilNul`: `char_buffer := [1]byte{1}`, then the loop. -/
def readUntilNul (c : ConnId) (script : List ReadResult) : ReadRun (Option GoError) :=
  readUntilNulLoop c script 1

/-- One run of `echoLoop`: the calls it makes, and whether the run finishes
(it does not when a `Read` never returns). -/
structure LoopRun where
  trace : List Event
  finished : Bool
  deriving DecidableEq, Repr

/-- The `for` loop of `echoLoop`; `buffer[0:n]` holds exactly the `n` bytes
the `Read` before it stored. -/
def echoLoopBody (to_read to_write : ConnId) :
    List ReadResult → (Nat → Option GoError) → LoopRun
  | [], _ => ⟨[], false⟩
  | r :: rest, writes =>
    let p := connRead ECHO_BUFFER_BYTES r
    match p.err with
    | some _ => ⟨[.read to_read ECHO_BUFFER_BYTES p], true⟩
    | none =>
      match writes 0 with
      | some e =>
        ⟨[.read to_read ECHO_BUFFER_BYTES p, .write to_write p.data (some e)], true⟩
      | none =>
        let run := echoLoopBody to_read to_write rest (afterWrite writes)
        ⟨.read to_read ECHO_BUFFER_BYTES p :: .write to_write p.data none :: run.trace,
          run.finished⟩

/-- The function `echoLoop`: the loop, then `to_write.Close()` and
`wg.Done()`. -/
def echoLoop (to_read to_write : ConnId) (reads : List ReadResult)
    (writes : Nat → Option GoError) : LoopRun :=
  let run := echoLoopBody to_read to_write reads writes
  if run.finished then ⟨run.trace ++ [.close to_write, .wgDone], true⟩
  else ⟨run.trace, false⟩

/-- The function `sendSocksResponse`: one `Write` of the encoded response,
whose error `binary.Write` returns and `sendSocksResponse` drops. -/
def sendSocksResponse (c : ConnId) (status : Byte) (writes : Nat → Option GoError) :
    Event :=
  .write c (encodeResponse { Null := 0, Status := status, Ignored := List.replicate 6 0 })
    (writes 0)

/-- The method `String()` of a `net.IP` of 4 bytes: dotted decimal. -/
def ipString (a : Byte × Byte × Byte × Byte) : String :=
  toString a.1.val ++ "." ++ toString a.2.1.val ++ "." ++ toString a.2.2.1.val ++ "."
    ++ toString a.2.2.2.val

/-- The destination, `fmt.Sprint(server_ip, ":", request.Port)`: no space is
added next to a string operand. -/
def serverAddr (request : Socks4ClientRequest) : String :=
  ipString request.Address ++ ":" ++ toString request.Port

/-- The world of one handler: the addresses it prints, the client connection,
and what `net.DialTimeout` answers for a network and an address. -/
structure Env where
  remoteAddr : String
  localAddr : String
  client : Transport
  dial : String → String → Except GoError Transport

/-- How a handler ends: it returns its `error` (`none` for `nil`), or it is
blocked for ever in a call that never returns. -/
inductive Outcome where
  | returned (err : Option GoError)
  | blocked
  deriving DecidableEq, Repr

/-- One run of `handleConnection`. -/
structure HandlerRun where
  trace : List Event
  outcome : Outcome
  deriving DecidableEq, Repr

/-- The line `handleConnection` prints first. -/
def hello (env : Env) : Event :=
  .stdout ("Received connection from " ++ env.remoteAddr ++ " on " ++ env.localAddr ++ "\n")

/-- The line `handleConnection` prints after the relay. -/
def goodbye (env : Env) : Event :=
  .stdout ("Closed connection from " ++ env.remoteAddr ++ " on " ++ env.localAddr ++ "\n")

/-- An interleaving of the calls of two goroutines, chosen by the schedule:
`true` lets the first one make its next call, `false` the second. -/
def interleave : List Bool → List Event → List Event → List Event
  | _, [], ys => ys
  | _, xs, [] => xs
  | [], xs, ys => xs ++ ys
  | true :: s, x :: xs, ys => x :: interleave s xs ys
  | false :: s, xs, y :: ys => y :: interleave s xs ys

/-- The relay of `handleConnection`, from `wg.Add(2)` to the two deferred
`Close` calls: the first goroutine runs from its `go` statement on, the second
`go` statement and the goroutine it starts are interleaved with it, and
`wg.Wait()` returns once both have called `wg.Done()`.  Each loop is the only
reader of one connection and the only writer of the other, so the calls it
makes depend on the results of the environment alone; the schedule decides
their order.  The deferred calls run last in, first out: `server.Close()`,
then `client.Close()`. -/
def relay (env : Env) (server : Transport) (clientReads : List ReadResult)
    (clientWrites : Nat → Option GoError) (sched : List Bool) : HandlerRun :=
  let down := echoLoop .server .client server.reads clientWrites
  let up := echoLoop .client .server clientReads server.writes
  let running := [Event.wgAdd 2, .go .server .client]
    ++ interleave sched down.trace (.go .client .server :: up.trace)
  if down.finished ∧ up.finished then
    ⟨running ++ [.wgWait, goodbye env, .close .server, .close .client], .returned none⟩
  else ⟨running, .blocked⟩

/-- The function `handleConnection`; `sched` is the interleaving of its two
goroutines. -/
def handleConnection (env : Env) (sched : List Bool) : HandlerRun :=
  let header := binaryRead .client env.client.reads
  match header.result with
  | none => ⟨hello env :: header.trace, .blocked⟩
  | some (.error e) => ⟨hello env :: header.trace ++ [.close .client], .returned (some e)⟩
  | some (.ok request) =>
    let user := readUntilNul .client header.rest
    match user.result with
    | none => ⟨hello env :: header.trace ++ user.trace, .blocked⟩
    | some (some e) =>
      ⟨hello env :: header.trace ++ user.trace ++ [.close .client], .returned (some e)⟩
    | some none =>
      if request.Command ≠ COMMAND_STREAM then
        ⟨hello env :: header.trace ++ user.trace
            ++ [sendSocksResponse .client STATUS_FAILURE env.client.writes, .close .client],
          .returned (some (.other ("Unsupported command:" ++ toString request.Command.val)))⟩
      else
        let server_addr := serverAddr request
        match env.dial "tcp" server_addr with
        | .error err =>
          ⟨hello env :: header.trace ++ user.trace
              ++ [.dial "tcp" server_addr CONNECT_TIMEOUT (some err),
                  sendSocksResponse .client STATUS_FAILURE env.client.writes, .close .client],
            .returned (some (.other
              ("Failed to connect to remote host:" ++ server_addr ++ err.Error)))⟩
        | .ok server =>
          let tail := relay env server user.rest (afterWrite env.client.writes) sched
          ⟨hello env :: header.trace ++ user.trace
              ++ [.dial "tcp" server_addr CONNECT_TIMEOUT none,
                  sendSocksResponse .client STATUS_SUCCESS env.client.writes]
              ++ tail.trace,
            tail.outcome⟩

/-! ## Observations on a trace -/

/-- The byte slices passed to `Write` on connection `c`, in order. -/
def writesTo (c : ConnId) (t : List Event) : List (List Byte) :=
  t.filterMap fun e =>
    match e with
    | .write c' p _ => if c' = c then some p else none
    | _ => none

/-- The byte slices the `Read` calls on connection `c` delivered, in order,
whatever `err` came with them. -/
def delivered (c : ConnId) (t : List Event) : List (List Byte) :=
  t.filterMap fun e =>
    match e with
    | .read c' _ r => if c' = c then some r.data else none
    | _ => none

/-- The addresses passed to `net.DialTimeout`, in order. -/
def dials (t : List Event) : List String :=
  t.filterMap fun e =>
    match e with
    | .dial _ address _ _ => some address
    | _ => none

/-- The relay loops started, in order, each as (read side, write side). -/
def started (t : List Event) : List (ConnId × ConnId) :=
  t.filterMap fun e =>
    match e with
    | .go r w => some (r, w)
    | _ => none

/-- How many times `Close` is called on connection `c`. -/
def closes (c : ConnId) (t : List Event) : Nat :=
  t.count (.close c)

/-- What happens before the first relay loop is started. -/
def beforeRelay (t : List Event) : List Event :=
  t.takeWhile fun e =>
    match e with
    | .go _ _ => false
    | _ => true

/-- A `Read` call. -/
def Event.isRead : Event → Bool
  | .read _ _ _ => true
  | _ => false

/-- A `Read` or `Write` call that returned an error. -/
def Event.failed : Event → Bool
  | .read _ _ r => r.err.isSome
  | .write _ _ err => err.isSome
  | _ => false

/-- A `Read` or `Write` call. -/
def Event.isTransfer : Event → Bool
  | .read _ _ _ => true
  | .write _ _ _ => true
  | _ => false

/-- The read results of a stream delivered one byte per `Read`, without
error. -/
def oneByOne (bs : List Byte) : List ReadResult :=
  bs.map fun b => { data := [b], err := none }

/-- The read results of a header delivered in the given chunks, without
error. -/
def inChunks (chunks : List (List Byte)) : List ReadResult :=
  chunks.map fun d => { data := d, err := none }

/-- The read results of a well-framed request: the 8 bytes of the header in
the given chunks, then the user id and its NUL one byte per `Read`, all without
error, then whatever follows. -/
def framed (chunks : List (List Byte)) (u : List Byte) (rest : List ReadResult) :
    List ReadResult :=
  inChunks chunks ++ oneByOne (u ++ [0]) ++ rest

/-- The client connection delivers a well-framed request with the given
`header`, followed by the read results `rest`: the header arrives in non-empty
chunks and the user id has no zero byte before its NUL. -/
def WellFramed (reads : List ReadResult) (header : List Byte) (rest : List ReadResult) :
    Prop :=
  ∃ chunks u, reads = framed chunks u rest ∧ chunks.flatten = header ∧ header.length = 8 ∧
    (∀ d ∈ chunks, d ≠ []) ∧ ∀ b ∈ u, b ≠ 0

/-- A destination that sends one byte and then closes. -/
def exampleServer : Transport :=
  { reads := [⟨[9], none⟩, ⟨[], some .EOF⟩], writes := fun _ => none }

/-- The scenario of the specification: a request for 93.184.216.34:80 with an
empty user id, then two bytes for the destination and the end of the stream;
every dial succeeds. -/
def exampleEnv : Env :=
  { remoteAddr := "198.51.100.7:40000"
    localAddr := "203.0.113.1:1080"
    client :=
      { reads := [⟨[0x04, 0x01, 0x00, 0x50, 0x5d, 0xb8, 0xd8, 0x22], none⟩, ⟨[0], none⟩,
          ⟨[7, 8], none⟩, ⟨[], some .EOF⟩]
        writes := fun _ => none }
    dial := fun _ _ => .ok exampleServer }

/-- The same client asking for BIND (command byte 0x02). -/
def exampleBindEnv : Env :=
  { exampleEnv with
    client :=
      { reads := [⟨[0x04, 0x02, 0x00, 0x50, 0x5d, 0xb8, 0xd8, 0x22], none⟩, ⟨[0], none⟩,
          ⟨[7, 8], none⟩, ⟨[], some .EOF⟩]
        writes := fun _ => none } }

/-- The scenario with a destination that refuses the connection. -/
def exampleRefusedEnv : Env :=
  { exampleEnv with dial := fun _ _ => .error (.other "connection refused") }

/-- The scenario with a client to which the first `Write` fails. -/
def exampleDeafEnv : Env :=
  { exampleEnv with
    client :=
      { reads := exampleEnv.client.reads
        writes := fun i => if i = 0 then some (.other "broken pipe") else none } }

/-- The scenario with a client that closes the connection inside the user
id, after the header and the two bytes `AB`. -/
def exampleCutEnv : Env :=
  { exampleEnv with
    client :=
      { reads := [⟨[0x04, 0x01, 0x00, 0x50, 0x5d, 0xb8, 0xd8, 0x22], none⟩, ⟨[65], none⟩,
          ⟨[66], none⟩, ⟨[], some .EOF⟩]
        writes := fun _ => none } }

/-- The client stream ends, errors or yields a zero-byte read before the
request is read.  Either the `Read` calls of the header deliver fewer than 8
bytes, the last of them with an error (the end of the stream is the error
`EOF`); or the header is read, in chunks of any size, and after the bytes `u`
of the user id, none of them zero, a `Read` returns an error or no byte.  A
`Read` of the header that returns no byte and no error is read again by
`io.ReadFull`: such reads may stand among the chunks, and do not cut the
stream by themselves. -/
def Truncated (reads : List ReadResult) : Prop :=
  (∃ chunks bad rest, reads = inChunks chunks ++ bad :: rest ∧ bad.err ≠ none ∧
      (chunks.flatten ++ bad.data).length < 8) ∨
    (∃ chunks u bad rest, reads = inChunks chunks ++ oneByOne u ++ bad :: rest ∧
      chunks.flatten.length = 8 ∧ (∀ b ∈ u, b ≠ 0) ∧ (bad.err ≠ none ∨ bad.data = []))

/-- The results of a script that a run of `echoLoop` consumes when no `Write`
fails: those up to and including the first one that carries an error. -/
def uptoFirstError : List ReadResult → List ReadResult
  | [] => []
  | r :: rest => if r.err = none then r :: uptoFirstError rest else [r]

/-- The 8 bytes of a response with the given status. -/
def responseBytes (status : Byte) : List Byte :=
  [0, status, 0, 0, 0, 0, 0, 0]


/-! ## `readUntilNul` -/

theorem connRead_err (cap : Nat) (r : ReadResult) : (connRead cap r).err = r.err := rfl

theorem readUntilNulLoop_oneByOne (c : ConnId) (rest : List ReadResult) (u : List Byte)
    (hu : ∀ b ∈ u, b ≠ 0) (ch : Byte) (hch : ch ≠ 0) :
    readUntilNulLoop c (oneByOne (u ++ [0]) ++ rest) ch
      = ⟨(u ++ [0]).map (fun b => .read c 1 { data := [b], err := none }), some none, rest⟩ := by
  induction u generalizing ch with
  | nil =>
    cases rest <;> simp [oneByOne, readUntilNulLoop, hch, connRead]
  | cons b u ih =>
    have hb : b ≠ 0 := hu b (by simp)
    have hu' : ∀ x ∈ u, x ≠ 0 := fun x hx => hu x (by simp [hx])
    have := ih hu' b hb
    simp only [oneByOne, List.map_append, List.map_cons, List.map_nil, List.append_assoc,
      List.singleton_append] at this
    simp [oneByOne, readUntilNulLoop, hch, connRead, this]


/-! ## `echoLoop` -/

theorem afterWrite_none (writes : Nat → Option GoError) (hw : ∀ i, writes i = none) :
    ∀ i, afterWrite writes i = none := fun i => hw (i + 1)

theorem echoLoop_trace (rd wr : ConnId) (reads : List ReadResult)
    (writes : Nat → Option GoError) :
    (echoLoop rd wr reads writes).trace
      = (echoLoopBody rd wr reads writes).trace
        ++ (if (echoLoopBody rd wr reads writes).finished then [.close wr, .wgDone] else []) := by
  unfold echoLoop
  cases h : (echoLoopBody rd wr reads writes).finished <;> simp [h]

theorem echoLoop_finished (rd wr : ConnId) (reads : List ReadResult)
    (writes : Nat → Option GoError) :
    (echoLoop rd wr reads writes).finished = (echoLoopBody rd wr reads writes).finished := by
  unfold echoLoop
  cases h : (echoLoopBody rd wr reads writes).finished <;> simp [h]

theorem echoLoopBody_shape (rd wr : ConnId) (reads : List ReadResult)
    (writes : Nat → Option GoError) :
    (∀ x ∈ (echoLoopBody rd wr reads writes).trace,
        (∃ cap r, x = .read rd cap r) ∨ (∃ p err, x = .write wr p err)) ∧
      ((echoLoopBody rd wr reads writes).finished = true →
        ∃ pre e, (echoLoopBody rd wr reads writes).trace = pre ++ [e] ∧ e.failed = true ∧
          ∀ x ∈ pre, x.failed = false) ∧
      ((echoLoopBody rd wr reads writes).finished = false →
        ∀ x ∈ (echoLoopBody rd wr reads writes).trace, x.failed = false) := by
  induction reads generalizing writes with
  | nil => simp [echoLoopBody]
  | cons r rest ih =>
    obtain ⟨ih1, ih2, ih3⟩ := ih (afterWrite writes)
    cases hr : r.err with
    | some e =>
      simp only [echoLoopBody, connRead_err, hr]
      refine ⟨?_, ?_, ?_⟩
      · intro x hx
        simp at hx
        exact Or.inl ⟨_, _, hx⟩
      · intro _
        exact ⟨[], _, rfl, by simp [Event.failed, connRead_err, hr], by simp⟩
      · simp
    | none =>
      cases hw : writes 0 with
      | some e =>
        simp only [echoLoopBody, connRead_err, hr, hw]
        refine ⟨?_, ?_, ?_⟩
        · intro x hx
          simp at hx
          rcases hx with hx | hx
          · exact Or.inl ⟨_, _, hx⟩
          · exact Or.inr ⟨_, _, hx⟩
        · intro _
          refine ⟨[_], _, rfl, by simp [Event.failed], ?_⟩
          intro x hx
          simp at hx
          simp [hx, Event.failed, connRead_err, hr]
        · simp
      | none =>
        simp only [echoLoopBody, connRead_err, hr, hw]
        refine ⟨?_, ?_, ?_⟩
        · intro x hx
          simp only [List.mem_cons] at hx
          rcases hx with hx | hx | hx
          · exact Or.inl ⟨_, _, hx⟩
          · exact Or.inr ⟨_, _, hx⟩
          · exact ih1 x hx
        · intro hf
          obtain ⟨pre, e, h1, h2, h3⟩ := ih2 hf
          refine ⟨.read rd ECHO_BUFFER_BYTES (connRead ECHO_BUFFER_BYTES r)
            :: .write wr (connRead ECHO_BUFFER_BYTES r).data none :: pre, e, by simp [h1], h2, ?_⟩
          intro x hx
          simp only [List.mem_cons] at hx
          rcases hx with hx | hx | hx
          · simp [hx, Event.failed, connRead_err, hr]
          · simp [hx, Event.failed]
          · exact h3 x hx
        · intro hf x hx
          simp only [List.mem_cons] at hx
          rcases hx with hx | hx | hx
          · simp [hx, Event.failed, connRead_err, hr]
          · simp [hx, Event.failed]
          · exact ih3 hf x hx


theorem writesTo_append (c : ConnId) (s t : List Event) :
    writesTo c (s ++ t) = writesTo c s ++ writesTo c t := by
  simp [writesTo]

theorem delivered_append (c : ConnId) (s t : List Event) :
    delivered c (s ++ t) = delivered c s ++ delivered c t := by
  simp [delivered]

theorem echoLoop_writesTo (rd wr : ConnId) (reads : List ReadResult)
    (writes : Nat → Option GoError) :
    writesTo wr (echoLoop rd wr reads writes).trace
      = writesTo wr (echoLoopBody rd wr reads writes).trace := by
  rw [echoLoop_trace, writesTo_append]
  cases (echoLoopBody rd wr reads writes).finished <;> simp [writesTo]

theorem echoLoop_delivered (rd wr : ConnId) (reads : List ReadResult)
    (writes : Nat → Option GoError) :
    delivered rd (echoLoop rd wr reads writes).trace
      = delivered rd (echoLoopBody rd wr reads writes).trace := by
  rw [echoLoop_trace, delivered_append]
  cases (echoLoopBody rd wr reads writes).finished <;> simp [delivered]

theorem echoLoopBody_no_close (rd wr c : ConnId) (reads : List ReadResult)
    (writes : Nat → Option GoError) :
    Event.close c ∉ (echoLoopBody rd wr reads writes).trace := by
  intro h
  rcases (echoLoopBody_shape rd wr reads writes).1 _ h with ⟨_, _, h'⟩ | ⟨_, _, h'⟩ <;> cases h'

theorem echoLoopBody_no_wgDone (rd wr : ConnId) (reads : List ReadResult)
    (writes : Nat → Option GoError) :
    Event.wgDone ∉ (echoLoopBody rd wr reads writes).trace := by
  intro h
  rcases (echoLoopBody_shape rd wr reads writes).1 _ h with ⟨_, _, h'⟩ | ⟨_, _, h'⟩ <;> cases h'

theorem echoLoopBody_transfer (rd wr : ConnId) (reads : List ReadResult)
    (writes : Nat → Option GoError) :
    ∀ x ∈ (echoLoopBody rd wr reads writes).trace, x.isTransfer = true := by
  intro x h
  rcases (echoLoopBody_shape rd wr reads writes).1 _ h with ⟨_, _, h'⟩ | ⟨_, _, h'⟩ <;>
    simp [h', Event.isTransfer]

/-- C8: when some `Read` or `Write` of a run of `echoLoop` returns an error,
the trace is the calls before it (all `Read` and `Write` calls without error),
that call, then `to_write.Close()` and `wg.Done()` and nothing more: `Close` is
called once on `to_write`, `Done` once, and `Close` never on `to_read`. -/
theorem echoLoop_stops_at_first_error (rd wr : ConnId) (reads : List ReadResult)
    (writes : Nat → Option GoError)
    (h : ∃ x ∈ (echoLoop rd wr reads writes).trace, x.failed = true) :
    (∃ pre e, (echoLoop rd wr reads writes).trace = pre ++ [e, .close wr, .wgDone] ∧
        e.failed = true ∧ e.isTransfer = true ∧
        ∀ x ∈ pre, x.failed = false ∧ x.isTransfer = true) ∧
      closes wr (echoLoop rd wr reads writes).trace = 1 ∧
      (echoLoop rd wr reads writes).trace.count .wgDone = 1 ∧
      (rd ≠ wr → closes rd (echoLoop rd wr reads writes).trace = 0) := by
  have hfin : (echoLoopBody rd wr reads writes).finished = true := by
    cases hf : (echoLoopBody rd wr reads writes).finished with
    | true => rfl
    | false =>
      obtain ⟨x, hx, hxf⟩ := h
      rw [echoLoop_trace, hf] at hx
      simp only [Bool.false_eq_true, if_false, List.append_nil] at hx
      have := (echoLoopBody_shape rd wr reads writes).2.2 hf x hx
      rw [this] at hxf
      cases hxf
  have htr := echoLoop_trace rd wr reads writes
  rw [hfin] at htr
  simp only [if_true] at htr
  have hc : ∀ c, (echoLoopBody rd wr reads writes).trace.count (.close c) = 0 := fun c =>
    List.count_eq_zero.mpr (echoLoopBody_no_close rd wr c reads writes)
  have hd : (echoLoopBody rd wr reads writes).trace.count .wgDone = 0 :=
    List.count_eq_zero.mpr (echoLoopBody_no_wgDone rd wr reads writes)
  obtain ⟨pre, e, h1, h2, h3⟩ := (echoLoopBody_shape rd wr reads writes).2.1 hfin
  refine ⟨⟨pre, e, ?_, h2, ?_, ?_⟩, ?_, ?_, ?_⟩
  · rw [htr, h1]; simp
  · exact echoLoopBody_transfer rd wr reads writes e (by rw [h1]; simp)
  · intro x hx
    exact ⟨h3 x hx, echoLoopBody_transfer rd wr reads writes x (by rw [h1]; simp [hx])⟩
  · rw [htr]; simp [closes, List.count_append, hc]
  · rw [htr]; simp [List.count_append, hd]
  · intro hne
    rw [htr]
    simp [closes, List.count_append, hc, List.count_cons, hne]

/-- Witness of C8: a `Read` that returns `EOF` after one forwarded slice. -/
theorem echoLoop_stops_at_first_error_witness :
    Event.read .client 1024 ⟨[], some .EOF⟩
        ∈ (echoLoop .client .server [⟨[7, 8], none⟩, ⟨[], some .EOF⟩, ⟨[9], none⟩]
          (fun _ => none)).trace ∧
      closes .server (echoLoop .client .server [⟨[7, 8], none⟩, ⟨[], some .EOF⟩, ⟨[9], none⟩]
        (fun _ => none)).trace = 1 ∧
      closes .client (echoLoop .client .server [⟨[7, 8], none⟩, ⟨[], some .EOF⟩, ⟨[9], none⟩]
        (fun _ => none)).trace = 0 :=
  ⟨by decide,
    (echoLoop_stops_at_first_error .client .server
      [⟨[7, 8], none⟩, ⟨[], some .EOF⟩, ⟨[9], none⟩] (fun _ => none)
      ⟨.read .client 1024 ⟨[], some .EOF⟩, by decide, rfl⟩).2.1,
    (echoLoop_stops_at_first_error .client .server
      [⟨[7, 8], none⟩, ⟨[], some .EOF⟩, ⟨[9], none⟩] (fun _ => none)
      ⟨.read .client 1024 ⟨[], some .EOF⟩, by decide, rfl⟩).2.2.2 (by decide)⟩

theorem echoLoopBody_script (rd wr : ConnId) (reads : List ReadResult)
    (writes : Nat → Option GoError) (hw : ∀ i, writes i = none)
    (hcap : ∀ r ∈ reads, r.data.length ≤ ECHO_BUFFER_BYTES) :
    writesTo wr (echoLoopBody rd wr reads writes).trace
        = (reads.takeWhile fun r => r.err.isNone).map (fun r => r.data) ∧
      delivered rd (echoLoopBody rd wr reads writes).trace
        = (uptoFirstError reads).map (fun r => r.data) := by
  induction reads generalizing writes with
  | nil => simp [echoLoopBody, writesTo, delivered, uptoFirstError]
  | cons r rest ih =>
    have ih' := ih (afterWrite writes) (afterWrite_none writes hw)
      (fun x hx => hcap x (by simp [hx]))
    simp only [writesTo, delivered] at ih'
    have htake : r.data.take ECHO_BUFFER_BYTES = r.data :=
      List.take_of_length_le (hcap r (by simp))
    cases hr : r.err with
    | some e =>
      simp [echoLoopBody, connRead_err, hr, writesTo, delivered, uptoFirstError, connRead, htake]
    | none =>
      simp [echoLoopBody, connRead_err, hr, hw 0, writesTo, delivered, uptoFirstError, connRead,
        htake, ih'.1, ih'.2]

theorem uptoFirstError_flatten (reads : List ReadResult)
    (hz : ∀ r ∈ reads, r.err ≠ none → r.data = []) :
    ((uptoFirstError reads).map (fun r => r.data)).flatten
      = ((reads.takeWhile fun r => r.err.isNone).map (fun r => r.data)).flatten := by
  induction reads with
  | nil => simp [uptoFirstError]
  | cons r rest ih =>
    have ih' := ih (fun x hx => hz x (by simp [hx]))
    cases hr : r.err with
    | some e =>
      have hd : r.data = [] := hz r (by simp) (by simp [hr])
      simp [uptoFirstError, hr, hd]
    | none => simp [uptoFirstError, hr, ih']

/-- C7: for every finite sequence of `Read` results of at most 1024 bytes, in
which a result that carries an error delivers no byte, and when no `Write`
fails, the `Read` calls `echoLoop` makes are those of the sequence up to and
including the first that returns an error, the slices it writes are the slices
delivered before that one, in order, and so the concatenation of the slices
written is the concatenation of all bytes delivered up to and including the
call that ends the loop. -/
theorem echoLoop_forwards_every_byte (rd wr : ConnId) (reads : List ReadResult)
    (writes : Nat → Option GoError) (hw : ∀ i, writes i = none)
    (hcap : ∀ r ∈ reads, r.data.length ≤ ECHO_BUFFER_BYTES)
    (herr : ∀ r ∈ reads, r.err ≠ none → r.data = []) :
    (writesTo wr (echoLoop rd wr reads writes).trace).flatten
        = ((uptoFirstError reads).map (fun r => r.data)).flatten ∧
      delivered rd (echoLoop rd wr reads writes).trace
        = (uptoFirstError reads).map (fun r => r.data) ∧
      writesTo wr (echoLoop rd wr reads writes).trace
        = (reads.takeWhile fun r => r.err.isNone).map (fun r => r.data) := by
  obtain ⟨h1, h2⟩ := echoLoopBody_script rd wr reads writes hw hcap
  rw [echoLoop_writesTo, echoLoop_delivered, h1, h2, uptoFirstError_flatten reads herr]
  exact ⟨rfl, rfl, rfl⟩

/-- Witness of C7: the slices 01 00 02 and 03, then the end of the stream; the
four bytes are written, and the result after the end is not read. -/
theorem echoLoop_forwards_every_byte_witness :
    (writesTo .server (echoLoop .client .server
        [⟨[1, 0, 2], none⟩, ⟨[3], none⟩, ⟨[], some .EOF⟩, ⟨[9], none⟩]
        (fun _ => none)).trace).flatten = [1, 0, 2, 3] ∧
      writesTo .server (echoLoop .client .server
        [⟨[1, 0, 2], none⟩, ⟨[3], none⟩, ⟨[], some .EOF⟩, ⟨[9], none⟩]
        (fun _ => none)).trace = [[1, 0, 2], [3]] :=
  ⟨(echoLoop_forwards_every_byte .client .server
      [⟨[1, 0, 2], none⟩, ⟨[3], none⟩, ⟨[], some .EOF⟩, ⟨[9], none⟩] (fun _ => none)
      (fun _ => rfl) (by decide) (by decide)).1.trans (by decide),
    (echoLoop_forwards_every_byte .client .server
      [⟨[1, 0, 2], none⟩, ⟨[3], none⟩, ⟨[], some .EOF⟩, ⟨[9], none⟩] (fun _ => none)
      (fun _ => rfl) (by decide) (by decide)).2.2.trans (by decide)⟩

/-- C10: on a stream `u ++ [0] ++ rest` with no zero byte in `u`, delivered one
byte per `Read` without error, `readUntilNul` returns `nil` after exactly
`len(u) + 1` reads of one byte, those of `u` and of the first NUL, and leaves
the reads of `rest` unread. -/
theorem readUntilNul_consumes_through_first_nul (c : ConnId) (u rest : List Byte)
    (hu : ∀ b ∈ u, b ≠ 0) :
    (readUntilNul c (oneByOne (u ++ 0 :: rest))).result = some none ∧
      (readUntilNul c (oneByOne (u ++ 0 :: rest))).rest = oneByOne rest ∧
      (readUntilNul c (oneByOne (u ++ 0 :: rest))).trace
        = (u ++ [0]).map (fun b => .read c 1 { data := [b], err := none }) ∧
      (delivered c (readUntilNul c (oneByOne (u ++ 0 :: rest))).trace).flatten = u ++ [0] ∧
      (readUntilNul c (oneByOne (u ++ 0 :: rest))).trace.length = u.length + 1 := by
  have h := readUntilNulLoop_oneByOne c (oneByOne rest) u hu 1 (by decide)
  have e : oneByOne (u ++ 0 :: rest) = oneByOne (u ++ [0]) ++ oneByOne rest := by
    simp [oneByOne]
  unfold readUntilNul
  rw [e, h]
  refine ⟨rfl, rfl, rfl, ?_, by simp⟩
  simp only [delivered, List.filterMap_map]
  induction u with
  | nil => simp
  | cons b u ih =>
    have := ih (fun x hx => hu x (by simp [hx]))
      (readUntilNulLoop_oneByOne c (oneByOne rest) u (fun x hx => hu x (by simp [hx])) 1
        (by decide))
      (by simp [oneByOne])
    simpa using this

/-- Witness of C10: the user id `AB`, then NUL, then three more bytes. -/
theorem readUntilNul_consumes_through_first_nul_witness :
    (readUntilNul .client (oneByOne ([65, 66] ++ 0 :: [1, 0, 2]))).result = some none ∧
      (readUntilNul .client (oneByOne ([65, 66] ++ 0 :: [1, 0, 2]))).rest = oneByOne [1, 0, 2] :=
  ⟨(readUntilNul_consumes_through_first_nul .client [65, 66] [1, 0, 2] (by simp)).1,
    (readUntilNul_consumes_through_first_nul .client [65, 66] [1, 0, 2] (by simp)).2.1⟩


/-! ## The handshake reads -/

theorem readAtLeastLoop_reads (c : ConnId) (min : Nat) (script : List ReadResult)
    (got : List Byte) : ∀ e ∈ (readAtLeastLoop c min script got).trace, e.isRead = true := by
  induction script generalizing got with
  | nil => intro e he; unfold readAtLeastLoop at he; split at he <;> simp at he
  | cons r rest ih =>
    intro e he
    unfold readAtLeastLoop at he
    split at he
    · simp only at he
      split at he
      · simp at he; simp [he, Event.isRead]
      · simp only [List.mem_cons] at he
        rcases he with he | he
        · simp [he, Event.isRead]
        · exact ih _ e he
    · simp at he

theorem readFull_trace (c : ConnId) (size : Nat) (script : List ReadResult) :
    (readFull c size script).trace = (readAtLeastLoop c size script []).trace := by
  unfold readFull
  simp only
  split
  · rfl
  · split
    · rfl
    · split <;> rfl

theorem readFull_rest (c : ConnId) (size : Nat) (script : List ReadResult) :
    (readFull c size script).rest = (readAtLeastLoop c size script []).rest := by
  unfold readFull
  simp only
  split
  · rfl
  · split
    · rfl
    · split <;> rfl

theorem binaryRead_trace (c : ConnId) (script : List ReadResult) :
    (binaryRead c script).trace = (readAtLeastLoop c 8 script []).trace := by
  unfold binaryRead
  simp only
  split <;> simp [readFull_trace]

theorem binaryRead_reads (c : ConnId) (script : List ReadResult) :
    ∀ e ∈ (binaryRead c script).trace, e.isRead = true := by
  rw [binaryRead_trace]
  exact readAtLeastLoop_reads c 8 script []

theorem readUntilNulLoop_reads (c : ConnId) (script : List ReadResult) (ch : Byte) :
    ∀ e ∈ (readUntilNulLoop c script ch).trace, e.isRead = true := by
  induction script generalizing ch with
  | nil => intro e he; unfold readUntilNulLoop at he; split at he <;> simp at he
  | cons r rest ih =>
    intro e he
    unfold readUntilNulLoop at he
    split at he
    · simp only at he
      split at he
      · simp at he; simp [he, Event.isRead]
      · split at he
        · simp at he; simp [he, Event.isRead]
        · simp only [List.mem_cons] at he
          rcases he with he | he
          · simp [he, Event.isRead]
          · exact ih _ e he
    · simp at he

theorem readUntilNul_reads (c : ConnId) (script : List ReadResult) :
    ∀ e ∈ (readUntilNul c script).trace, e.isRead = true :=
  readUntilNulLoop_reads c script 1

theorem readAtLeastLoop_inChunks (c : ConnId) (min : Nat) (rest : List ReadResult)
    (chunks : List (List Byte)) (got : List Byte) (hne : ∀ d ∈ chunks, d ≠ [])
    (hlen : got.length + chunks.flatten.length = min) :
    (readAtLeastLoop c min (inChunks chunks ++ rest) got).result
        = some (got ++ chunks.flatten, none) ∧
      (readAtLeastLoop c min (inChunks chunks ++ rest) got).rest = rest := by
  induction chunks generalizing got with
  | nil =>
    simp at hlen
    cases rest <;> simp [inChunks, readAtLeastLoop, hlen]
  | cons d ds ih =>
    have hd : d ≠ [] := hne d (by simp)
    have hdl : 0 < d.length := List.length_pos.mpr hd
    simp only [List.flatten_cons, List.length_append] at hlen
    have hlt : got.length < min := by omega
    have htake : d.take (min - got.length) = d := List.take_of_length_le (by omega)
    have ih' := ih (got ++ d) (fun x hx => hne x (by simp [hx]))
      (by simp only [List.length_append]; omega)
    simp only [inChunks] at ih'
    simp [inChunks, readAtLeastLoop, hlt, connRead, htake, ih']

theorem binaryRead_framed (c : ConnId) (chunks : List (List Byte)) (u : List Byte)
    (rest : List ReadResult) (hne : ∀ d ∈ chunks, d ≠ []) (hlen : chunks.flatten.length = 8) :
    (binaryRead c (framed chunks u rest)).result = some (.ok (decodeRequest chunks.flatten)) ∧
      (binaryRead c (framed chunks u rest)).rest = oneByOne (u ++ [0]) ++ rest := by
  have h := readAtLeastLoop_inChunks c 8 (oneByOne (u ++ [0]) ++ rest) chunks [] hne
    (by simpa using hlen)
  have hf : framed chunks u rest = inChunks chunks ++ (oneByOne (u ++ [0]) ++ rest) := by
    simp [framed]
  rw [hf]
  unfold binaryRead readFull
  simp [h.1, h.2, hlen]

theorem readUntilNul_framed (c : ConnId) (u : List Byte) (rest : List ReadResult)
    (hu : ∀ b ∈ u, b ≠ 0) :
    (readUntilNul c (oneByOne (u ++ [0]) ++ rest)).result = some none ∧
      (readUntilNul c (oneByOne (u ++ [0]) ++ rest)).rest = rest := by
  unfold readUntilNul
  rw [readUntilNulLoop_oneByOne c rest u hu 1 (by decide)]
  exact ⟨rfl, rfl⟩

/-! ## Interleavings -/

theorem interleave_perm (s : List Bool) (xs ys : List Event) :
    (interleave s xs ys).Perm (xs ++ ys) := by
  induction s, xs, ys using interleave.induct with
  | case1 s ys => simp [interleave]
  | case2 s xs h => simp [interleave]
  | case3 xs ys h1 h2 => simp [interleave]
  | case4 s x xs ys h ih =>
    simp only [interleave, List.cons_append]
    exact List.Perm.cons x ih
  | case5 s xs y ys h ih =>
    simp only [interleave]
    exact (List.Perm.cons y ih).trans (List.perm_middle.symm)


theorem filterMap_interleave_left {β : Type} (f : Event → Option β) (s : List Bool)
    (xs ys : List Event) (h : ∀ x ∈ xs, f x = none) :
    (interleave s xs ys).filterMap f = ys.filterMap f := by
  induction s, xs, ys using interleave.induct with
  | case1 s ys => simp [interleave]
  | case2 s xs hne =>
    simp only [interleave, List.filterMap_nil, List.filterMap_eq_nil_iff]
    exact h
  | case3 xs ys h1 h2 =>
    simp only [interleave, List.filterMap_append]
    rw [List.filterMap_eq_nil_iff.mpr h]; rfl
  | case4 s x xs ys hne ih =>
    simp only [interleave]
    rw [List.filterMap_cons, h x (by simp)]
    exact ih (fun z hz => h z (by simp [hz]))
  | case5 s xs y ys hne ih =>
    simp only [interleave, List.filterMap_cons]
    rw [ih h]

theorem filterMap_interleave_right {β : Type} (f : Event → Option β) (s : List Bool)
    (xs ys : List Event) (h : ∀ y ∈ ys, f y = none) :
    (interleave s xs ys).filterMap f = xs.filterMap f := by
  induction s, xs, ys using interleave.induct with
  | case1 s ys =>
    simp only [interleave, List.filterMap_nil, List.filterMap_eq_nil_iff]
    exact h
  | case2 s xs hne => simp [interleave]
  | case3 xs ys h1 h2 =>
    simp only [interleave, List.filterMap_append]
    rw [List.filterMap_eq_nil_iff.mpr h]; simp
  | case4 s x xs ys hne ih =>
    simp only [interleave, List.filterMap_cons]
    rw [ih h]
  | case5 s xs y ys hne ih =>
    simp only [interleave]
    rw [List.filterMap_cons, h y (by simp)]
    exact ih (fun z hz => h z (by simp [hz]))

theorem filterMap_reads {β : Type} (f : Event → Option β) (t : List Event)
    (ht : ∀ e ∈ t, e.isRead = true) (hf : ∀ c cap r, f (.read c cap r) = none) :
    t.filterMap f = [] := by
  rw [List.filterMap_eq_nil_iff]
  intro e he
  have := ht e he
  cases e <;> simp [Event.isRead] at this
  exact hf _ _ _

theorem handleConnection_framed (env : Env) (sched : List Bool) (header : List Byte)
    (rest : List ReadResult) (h : WellFramed env.client.reads header rest) :
    ∃ pre, (∀ e ∈ pre, e.isRead = true) ∧
      handleConnection env sched =
        if (decodeRequest header).Command ≠ COMMAND_STREAM then
          ⟨hello env :: pre
              ++ [sendSocksResponse .client STATUS_FAILURE env.client.writes, .close .client],
            .returned (some (.other
              ("Unsupported command:" ++ toString (decodeRequest header).Command.val)))⟩
        else
          match env.dial "tcp" (serverAddr (decodeRequest header)) with
          | .error err =>
            ⟨hello env :: pre
                ++ [.dial "tcp" (serverAddr (decodeRequest header)) CONNECT_TIMEOUT (some err),
                    sendSocksResponse .client STATUS_FAILURE env.client.writes, .close .client],
              .returned (some (.other ("Failed to connect to remote host:"
                ++ serverAddr (decodeRequest header) ++ err.Error)))⟩
          | .ok server =>
            ⟨hello env :: pre
                ++ [.dial "tcp" (serverAddr (decodeRequest header)) CONNECT_TIMEOUT none,
                    sendSocksResponse .client STATUS_SUCCESS env.client.writes]
                ++ (relay env server rest (afterWrite env.client.writes) sched).trace,
              (relay env server rest (afterWrite env.client.writes) sched).outcome⟩ := by
  obtain ⟨chunks, u, hreads, hflat, hlen, hne, hu⟩ := h
  subst hflat
  obtain ⟨hb1, hb2⟩ := binaryRead_framed .client chunks u rest hne hlen
  obtain ⟨hu1, hu2⟩ := readUntilNul_framed .client u rest hu
  refine ⟨(binaryRead .client (framed chunks u rest)).trace
    ++ (readUntilNul .client (oneByOne (u ++ [0]) ++ rest)).trace, ?_, ?_⟩
  · intro e he
    rcases List.mem_append.mp he with he | he
    · exact binaryRead_reads _ _ e he
    · exact readUntilNul_reads _ _ e he
  · unfold handleConnection
    simp only [hreads, hb1, hb2, hu1, hu2, hello]
    split
    · simp
    · split <;> simp


/-! ## The relay -/

theorem echoLoop_events (rd wr : ConnId) (reads : List ReadResult)
    (writes : Nat → Option GoError) :
    ∀ x ∈ (echoLoop rd wr reads writes).trace,
      (∃ cap r, x = .read rd cap r) ∨ (∃ p err, x = .write wr p err) ∨ x = .close wr
        ∨ x = .wgDone := by
  intro x hx
  rw [echoLoop_trace] at hx
  rcases List.mem_append.mp hx with hx | hx
  · rcases (echoLoopBody_shape rd wr reads writes).1 x hx with h | h
    · exact Or.inl h
    · exact Or.inr (Or.inl h)
  · split at hx
    · simp at hx
      rcases hx with hx | hx
      · exact Or.inr (Or.inr (Or.inl hx))
      · exact Or.inr (Or.inr (Or.inr hx))
    · simp at hx

theorem relay_trace (env : Env) (server : Transport) (clientReads : List ReadResult)
    (clientWrites : Nat → Option GoError) (sched : List Bool) :
    (relay env server clientReads clientWrites sched).trace
      = [.wgAdd 2, .go .server .client]
        ++ interleave sched (echoLoop .server .client server.reads clientWrites).trace
            (.go .client .server :: (echoLoop .client .server clientReads server.writes).trace)
        ++ (if (echoLoop .server .client server.reads clientWrites).finished = true
              ∧ (echoLoop .client .server clientReads server.writes).finished = true
            then [.wgWait, goodbye env, .close .server, .close .client] else []) := by
  unfold relay
  simp only [goodbye]
  split <;> simp

theorem relay_outcome (env : Env) (server : Transport) (clientReads : List ReadResult)
    (clientWrites : Nat → Option GoError) (sched : List Bool) :
    (relay env server clientReads clientWrites sched).outcome
      = if (echoLoop .server .client server.reads clientWrites).finished = true
            ∧ (echoLoop .client .server clientReads server.writes).finished = true
        then .returned none else .blocked := by
  unfold relay
  simp only
  split <;> rfl

theorem relay_dials (env : Env) (server : Transport) (clientReads : List ReadResult)
    (clientWrites : Nat → Option GoError) (sched : List Bool) :
    dials (relay env server clientReads clientWrites sched).trace = [] := by
  unfold dials
  rw [List.filterMap_eq_nil_iff]
  intro x hx
  rw [relay_trace] at hx
  simp only [List.mem_append, (interleave_perm _ _ _).mem_iff, List.mem_cons] at hx
  rcases hx with (hx | hx) | hx
  · rcases hx with hx | hx | hx
    · simp [hx]
    · simp [hx]
    · simp at hx
  · rcases hx with hx | hx | hx
    · rcases echoLoop_events _ _ _ _ x hx with ⟨_, _, h⟩ | ⟨_, _, h⟩ | h | h <;> simp [h]
    · simp [hx]
    · rcases echoLoop_events _ _ _ _ x hx with ⟨_, _, h⟩ | ⟨_, _, h⟩ | h | h <;> simp [h]
  · split at hx
    · simp [goodbye] at hx
      rcases hx with hx | hx | hx | hx <;> simp [hx]
    · simp at hx

theorem relay_started (env : Env) (server : Transport) (clientReads : List ReadResult)
    (clientWrites : Nat → Option GoError) (sched : List Bool) :
    started (relay env server clientReads clientWrites sched).trace
      = [(.server, .client), (.client, .server)] := by
  unfold started
  rw [relay_trace, List.filterMap_append, List.filterMap_append, filterMap_interleave_left]
  · have h1 : List.filterMap (fun e => match e with
          | Event.go r w => some (r, w)
          | _ => none) (echoLoop .client .server clientReads server.writes).trace = [] := by
      rw [List.filterMap_eq_nil_iff]
      intro x hx
      rcases echoLoop_events _ _ _ _ x hx with ⟨_, _, h⟩ | ⟨_, _, h⟩ | h | h <;> simp [h]
    rw [List.filterMap_cons]
    simp only [h1]
    split <;> simp [goodbye] <;> exact List.filterMap_eq_nil_iff.mp h1
  · intro x hx
    rcases echoLoop_events _ _ _ _ x hx with ⟨_, _, h⟩ | ⟨_, _, h⟩ | h | h <;> simp [h]

theorem bigEndianUint16_eq (hi lo : Byte) : bigEndianUint16 hi lo = 256 * hi.val + lo.val := by
  have h1 := hi.isLt
  have h2 := lo.isLt
  have h3 := Nat.mul_add_lt_is_or (by omega : lo.val < 2 ^ 8) hi.val
  unfold bigEndianUint16
  rw [Nat.lor_comm, Nat.shiftLeft_eq, Nat.mul_comm, ← h3]
  omega

theorem decodeRequest_bytes (b0 b1 b2 b3 b4 b5 b6 b7 : Byte) :
    decodeRequest [b0, b1, b2, b3, b4, b5, b6, b7]
      = { Version := b0, Command := b1, Port := 256 * b2.val + b3.val,
          Address := (b4, b5, b6, b7) } := by
  simp [decodeRequest, bigEndianUint16_eq]

theorem sendSocksResponse_eq (c : ConnId) (status : Byte) (writes : Nat → Option GoError) :
    sendSocksResponse c status writes = .write c (responseBytes status) (writes 0) := rfl


/-! ## The handshake of a well-framed request -/

theorem filterMap_handshake {β : Type} (f : Event → Option β) (env : Env)
    (pre t : List Event) (hpre : ∀ e ∈ pre, e.isRead = true)
    (hs : ∀ text, f (.stdout text) = none) (hf : ∀ c cap r, f (.read c cap r) = none) :
    (hello env :: pre ++ t).filterMap f = t.filterMap f := by
  rw [List.cons_append, List.filterMap_cons, List.filterMap_append,
    filterMap_reads f pre hpre hf]
  simp [hello, hs]

theorem count_reads (x : Event) (pre : List Event) (hpre : ∀ e ∈ pre, e.isRead = true)
    (hx : x.isRead = false) : pre.count x = 0 := by
  rw [List.count_eq_zero]
  intro h
  rw [hpre x h] at hx
  cases hx

/-- C1: for a well-framed request with command byte 0x01 and any version
byte, `handleConnection` dials once, and the address is the four address bytes
in dotted decimal, a colon and the big-endian port in decimal. -/
theorem handleConnection_dials_requested_address (env : Env) (sched : List Bool)
    (b0 b2 b3 b4 b5 b6 b7 : Byte) (rest : List ReadResult)
    (h : WellFramed env.client.reads [b0, 0x01, b2, b3, b4, b5, b6, b7] rest) :
    dials (handleConnection env sched).trace
      = [toString b4.val ++ "." ++ toString b5.val ++ "." ++ toString b6.val ++ "."
          ++ toString b7.val ++ ":" ++ toString (256 * b2.val + b3.val)] := by
  obtain ⟨pre, hpre, heq⟩ := handleConnection_framed env sched _ rest h
  rw [heq, decodeRequest_bytes]
  simp only [COMMAND_STREAM, ne_eq, not_true_eq_false, if_false]
  unfold dials
  cases env.dial "tcp" (serverAddr ⟨b0, 1, 256 * b2.val + b3.val, (b4, b5, b6, b7)⟩) with
  | error err =>
    simp only
    rw [filterMap_handshake _ env pre _ hpre (fun _ => rfl) (fun _ _ _ => rfl)]
    simp [sendSocksResponse, serverAddr, ipString]
  | ok server =>
    simp only
    rw [List.append_assoc, filterMap_handshake _ env pre _ hpre (fun _ => rfl) (fun _ _ _ => rfl),
      List.filterMap_append]
    have := relay_dials env server rest (afterWrite env.client.writes) sched
    unfold dials at this
    rw [this]
    simp [sendSocksResponse, serverAddr, ipString]

/-- Witness of C1: the header 04 01 00 50 5d b8 d8 22 dials 93.184.216.34:80. -/
theorem handleConnection_dials_requested_address_witness :
    WellFramed exampleEnv.client.reads [0x04, 0x01, 0x00, 0x50, 0x5d, 0xb8, 0xd8, 0x22]
        [⟨[7, 8], none⟩, ⟨[], some .EOF⟩] ∧
      dials (handleConnection exampleEnv [true, false]).trace = ["93.184.216.34:80"] :=
  ⟨⟨[[0x04, 0x01, 0x00, 0x50, 0x5d, 0xb8, 0xd8, 0x22]], [], rfl, rfl, rfl, by simp, by simp⟩,
    (handleConnection_dials_requested_address exampleEnv [true, false] 0x04 0x00 0x50 0x5d 0xb8
      0xd8 0x22 [⟨[7, 8], none⟩, ⟨[], some .EOF⟩]
      ⟨[[0x04, 0x01, 0x00, 0x50, 0x5d, 0xb8, 0xd8, 0x22]], [], rfl, rfl, rfl, by simp,
        by simp⟩).trans (by decide)⟩


theorem relay_writesTo_client (env : Env) (server : Transport) (clientReads : List ReadResult)
    (clientWrites : Nat → Option GoError) (sched : List Bool) :
    writesTo .client (relay env server clientReads clientWrites sched).trace
      = writesTo .client (echoLoop .server .client server.reads clientWrites).trace := by
  unfold writesTo
  rw [relay_trace, List.filterMap_append, List.filterMap_append, filterMap_interleave_right]
  · have h2 : List.filterMap (fun e => match e with
          | Event.write c' p _ => if c' = ConnId.client then some p else none
          | _ => none)
        (if (echoLoop .server .client server.reads clientWrites).finished = true
              ∧ (echoLoop .client .server clientReads server.writes).finished = true
            then [.wgWait, goodbye env, .close .server, .close .client] else []) = [] := by
      split <;> simp [goodbye]
    rw [h2]
    simp
  · intro x hx
    simp only [List.mem_cons] at hx
    rcases hx with hx | hx
    · simp [hx]
    · rcases echoLoop_events _ _ _ _ x hx with ⟨_, _, h⟩ | ⟨_, _, h⟩ | h | h <;> simp [h]

/-- C2: for a well-framed request with command byte 0x01 whose dial succeeds,
the trace of `handleConnection` is reads and the dial, with no write and no
relay loop started, then the one write of the response 00 5a 00 00 00 00 00 00
to the client, then the start of the relay; every other write to the client is
one of the relay loop from the destination; and when both relay loops finish,
`handleConnection` returns `nil`. -/
theorem handleConnection_success_response (env : Env) (sched : List Bool)
    (b0 b2 b3 b4 b5 b6 b7 : Byte) (rest : List ReadResult) (server : Transport)
    (h : WellFramed env.client.reads [b0, 0x01, b2, b3, b4, b5, b6, b7] rest)
    (hd : env.dial "tcp" (serverAddr (decodeRequest [b0, 0x01, b2, b3, b4, b5, b6, b7]))
      = .ok server) :
    (∃ pre tail, (handleConnection env sched).trace
        = pre ++ .write .client [0x00, 0x5a, 0, 0, 0, 0, 0, 0] (env.client.writes 0)
          :: .wgAdd 2 :: .go .server .client :: tail ∧
        writesTo .client pre = [] ∧ writesTo .server pre = [] ∧ started pre = []) ∧
      writesTo .client (beforeRelay (handleConnection env sched).trace)
        = [[0x00, 0x5a, 0, 0, 0, 0, 0, 0]] ∧
      writesTo .server (beforeRelay (handleConnection env sched).trace) = [] ∧
      started (handleConnection env sched).trace = [(.server, .client), (.client, .server)] ∧
      writesTo .client (handleConnection env sched).trace
        = [0x00, 0x5a, 0, 0, 0, 0, 0, 0]
          :: writesTo .client
            (echoLoop .server .client server.reads (afterWrite env.client.writes)).trace ∧
      ((echoLoop .server .client server.reads (afterWrite env.client.writes)).finished = true →
        (echoLoop .client .server rest server.writes).finished = true →
        (handleConnection env sched).outcome = .returned none) := by
  obtain ⟨pre, hpre, heq⟩ := handleConnection_framed env sched _ rest h
  rw [hd] at heq
  have hcmd : (decodeRequest [b0, 0x01, b2, b3, b4, b5, b6, b7]).Command = COMMAND_STREAM := rfl
  simp only [hcmd, ne_eq, not_true_eq_false, if_false] at heq
  rw [heq]
  simp only
  have hbr : beforeRelay (hello env :: pre
      ++ [.dial "tcp" (serverAddr (decodeRequest [b0, 0x01, b2, b3, b4, b5, b6, b7]))
            CONNECT_TIMEOUT none,
          sendSocksResponse .client STATUS_SUCCESS env.client.writes]
      ++ (relay env server rest (afterWrite env.client.writes) sched).trace)
      = hello env :: pre
        ++ [.dial "tcp" (serverAddr (decodeRequest [b0, 0x01, b2, b3, b4, b5, b6, b7]))
              CONNECT_TIMEOUT none,
            sendSocksResponse .client STATUS_SUCCESS env.client.writes, .wgAdd 2] := by
    unfold beforeRelay
    rw [relay_trace, List.cons_append, List.cons_append,
      List.takeWhile_cons_of_pos (by simp [hello]), List.append_assoc,
      List.takeWhile_append_of_pos]
    · simp [sendSocksResponse]
    · intro e he
      have := hpre e he
      cases e <;> simp [Event.isRead] at this ⊢
  refine ⟨⟨hello env :: pre
      ++ [.dial "tcp" (serverAddr (decodeRequest [b0, 0x01, b2, b3, b4, b5, b6, b7]))
            CONNECT_TIMEOUT none],
      interleave sched
          (echoLoop .server .client server.reads (afterWrite env.client.writes)).trace
          (.go .client .server :: (echoLoop .client .server rest server.writes).trace)
        ++ (if (echoLoop .server .client server.reads (afterWrite env.client.writes)).finished
                = true ∧ (echoLoop .client .server rest server.writes).finished = true
            then [.wgWait, goodbye env, .close .server, .close .client] else []),
      ?_, ?_, ?_, ?_⟩, ?_, ?_, ?_, ?_, ?_⟩
  · rw [relay_trace]
    simp only [List.append_assoc, List.cons_append, List.nil_append, sendSocksResponse_eq]
    rfl
  · unfold writesTo
    rw [filterMap_handshake _ env pre _ hpre (fun _ => rfl) (fun _ _ _ => rfl)]
    simp
  · unfold writesTo
    rw [filterMap_handshake _ env pre _ hpre (fun _ => rfl) (fun _ _ _ => rfl)]
    simp
  · unfold started
    rw [filterMap_handshake _ env pre _ hpre (fun _ => rfl) (fun _ _ _ => rfl)]
    simp
  · rw [hbr]
    unfold writesTo
    rw [filterMap_handshake _ env pre _ hpre (fun _ => rfl) (fun _ _ _ => rfl)]
    simp [sendSocksResponse_eq, responseBytes, STATUS_SUCCESS]
  · rw [hbr]
    unfold writesTo
    rw [filterMap_handshake _ env pre _ hpre (fun _ => rfl) (fun _ _ _ => rfl)]
    simp [sendSocksResponse_eq]
  · have := relay_started env server rest (afterWrite env.client.writes) sched
    unfold started at this ⊢
    rw [List.append_assoc, filterMap_handshake _ env pre _ hpre (fun _ => rfl)
      (fun _ _ _ => rfl), List.filterMap_append, this]
    simp [sendSocksResponse_eq]
  · have := relay_writesTo_client env server rest (afterWrite env.client.writes) sched
    unfold writesTo at this ⊢
    rw [List.append_assoc, filterMap_handshake _ env pre _ hpre (fun _ => rfl)
      (fun _ _ _ => rfl), List.filterMap_append, this]
    simp [sendSocksResponse_eq, responseBytes, STATUS_SUCCESS]
  · intro h1 h2
    rw [relay_outcome]
    simp [h1, h2]


theorem getLast_snoc (l : List Event) (y : Event) : (l ++ [y]).getLast? = some y := by
  simp

/-- Witness of C2: the scenario of the specification. -/
theorem handleConnection_success_response_witness :
    WellFramed exampleEnv.client.reads [0x04, 0x01, 0x00, 0x50, 0x5d, 0xb8, 0xd8, 0x22]
        [⟨[7, 8], none⟩, ⟨[], some .EOF⟩] ∧
      writesTo .client (beforeRelay (handleConnection exampleEnv [true, false]).trace)
        = [[0x00, 0x5a, 0, 0, 0, 0, 0, 0]] ∧
      (handleConnection exampleEnv [true, false]).outcome = .returned none :=
  ⟨⟨[[0x04, 0x01, 0x00, 0x50, 0x5d, 0xb8, 0xd8, 0x22]], [], rfl, rfl, rfl, by simp, by simp⟩,
    (handleConnection_success_response exampleEnv [true, false] 0x04 0x00 0x50 0x5d 0xb8 0xd8
      0x22 [⟨[7, 8], none⟩, ⟨[], some .EOF⟩] exampleServer
      ⟨[[0x04, 0x01, 0x00, 0x50, 0x5d, 0xb8, 0xd8, 0x22]], [], rfl, rfl, rfl, by simp, by simp⟩
      rfl).2.1,
    (handleConnection_success_response exampleEnv [true, false] 0x04 0x00 0x50 0x5d 0xb8 0xd8
      0x22 [⟨[7, 8], none⟩, ⟨[], some .EOF⟩] exampleServer
      ⟨[[0x04, 0x01, 0x00, 0x50, 0x5d, 0xb8, 0xd8, 0x22]], [], rfl, rfl, rfl, by simp, by simp⟩
      rfl).2.2.2.2.2 (by decide) (by decide)⟩

/-- C3: for a well-framed request whose command byte is not 0x01,
`handleConnection` writes once to the client, the response
00 5b 00 00 00 00 00 00, dials nothing, starts no relay loop, returns the error
`Unsupported command:` and closes the client connection, once, as its last
call. -/
theorem handleConnection_rejects_other_commands (env : Env) (sched : List Bool)
    (b0 b1 b2 b3 b4 b5 b6 b7 : Byte) (rest : List ReadResult)
    (h : WellFramed env.client.reads [b0, b1, b2, b3, b4, b5, b6, b7] rest)
    (hcmd : b1 ≠ 0x01) :
    writesTo .client (handleConnection env sched).trace = [[0x00, 0x5b, 0, 0, 0, 0, 0, 0]] ∧
      dials (handleConnection env sched).trace = [] ∧
      started (handleConnection env sched).trace = [] ∧
      (handleConnection env sched).outcome
        = .returned (some (.other ("Unsupported command:" ++ toString b1.val))) ∧
      closes .client (handleConnection env sched).trace = 1 ∧
      (handleConnection env sched).trace.getLast? = some (.close .client) := by
  obtain ⟨pre, hpre, heq⟩ := handleConnection_framed env sched _ rest h
  have hc : (decodeRequest [b0, b1, b2, b3, b4, b5, b6, b7]).Command ≠ COMMAND_STREAM := hcmd
  rw [if_pos hc] at heq
  rw [heq]
  refine ⟨?_, ?_, ?_, ?_, ?_, ?_⟩
  · unfold writesTo
    rw [filterMap_handshake _ env pre _ hpre (fun _ => rfl) (fun _ _ _ => rfl)]
    simp [sendSocksResponse_eq, responseBytes, STATUS_FAILURE]
  · unfold dials
    rw [filterMap_handshake _ env pre _ hpre (fun _ => rfl) (fun _ _ _ => rfl)]
    simp [sendSocksResponse_eq]
  · unfold started
    rw [filterMap_handshake _ env pre _ hpre (fun _ => rfl) (fun _ _ _ => rfl)]
    simp [sendSocksResponse_eq]
  · rfl
  · simp only [closes, List.cons_append, List.count_cons, List.count_append,
      count_reads (.close .client) pre hpre rfl]
    simp [hello, sendSocksResponse_eq]
  · have e : hello env :: pre
        ++ [sendSocksResponse .client STATUS_FAILURE env.client.writes, .close .client]
        = (hello env :: pre ++ [sendSocksResponse .client STATUS_FAILURE env.client.writes])
          ++ [.close .client] := by simp
    simp only [e, getLast_snoc]

/-- Witness of C3: a BIND request. -/
theorem handleConnection_rejects_other_commands_witness :
    WellFramed exampleBindEnv.client.reads [0x04, 0x02, 0x00, 0x50, 0x5d, 0xb8, 0xd8, 0x22]
        [⟨[7, 8], none⟩, ⟨[], some .EOF⟩] ∧
      (0x02 : Byte) ≠ 0x01 ∧
      writesTo .client (handleConnection exampleBindEnv []).trace
        = [[0x00, 0x5b, 0, 0, 0, 0, 0, 0]] :=
  ⟨⟨[[0x04, 0x02, 0x00, 0x50, 0x5d, 0xb8, 0xd8, 0x22]], [], rfl, rfl, rfl, by simp, by simp⟩,
    by decide,
    (handleConnection_rejects_other_commands exampleBindEnv [] 0x04 0x02 0x00 0x50 0x5d 0xb8
      0xd8 0x22 [⟨[7, 8], none⟩, ⟨[], some .EOF⟩]
      ⟨[[0x04, 0x02, 0x00, 0x50, 0x5d, 0xb8, 0xd8, 0x22]], [], rfl, rfl, rfl, by simp, by simp⟩
      (by decide)).1⟩

/-- C4: for a well-framed request with command byte 0x01 whose dial fails,
`handleConnection` writes once to the client, the response
00 5b 00 00 00 00 00 00, after the one dial, starts no relay loop, returns the
error `Failed to connect to remote host:` and closes the client connection,
once, as its last call. -/
theorem handleConnection_dial_failure (env : Env) (sched : List Bool)
    (b0 b2 b3 b4 b5 b6 b7 : Byte) (rest : List ReadResult) (err : GoError)
    (h : WellFramed env.client.reads [b0, 0x01, b2, b3, b4, b5, b6, b7] rest)
    (hd : env.dial "tcp" (serverAddr (decodeRequest [b0, 0x01, b2, b3, b4, b5, b6, b7]))
      = .error err) :
    writesTo .client (handleConnection env sched).trace = [[0x00, 0x5b, 0, 0, 0, 0, 0, 0]] ∧
      writesTo .server (handleConnection env sched).trace = [] ∧
      started (handleConnection env sched).trace = [] ∧
      (handleConnection env sched).outcome
        = .returned (some (.other ("Failed to connect to remote host:"
            ++ serverAddr (decodeRequest [b0, 0x01, b2, b3, b4, b5, b6, b7]) ++ err.Error))) ∧
      closes .client (handleConnection env sched).trace = 1 ∧
      closes .server (handleConnection env sched).trace = 0 ∧
      (handleConnection env sched).trace.getLast? = some (.close .client) := by
  obtain ⟨pre, hpre, heq⟩ := handleConnection_framed env sched _ rest h
  rw [hd] at heq
  have hcmd : (decodeRequest [b0, 0x01, b2, b3, b4, b5, b6, b7]).Command = COMMAND_STREAM := rfl
  simp only [hcmd, ne_eq, not_true_eq_false, if_false] at heq
  rw [heq]
  refine ⟨?_, ?_, ?_, ?_, ?_, ?_, ?_⟩
  · unfold writesTo
    rw [filterMap_handshake _ env pre _ hpre (fun _ => rfl) (fun _ _ _ => rfl)]
    simp [sendSocksResponse_eq, responseBytes, STATUS_FAILURE]
  · unfold writesTo
    rw [filterMap_handshake _ env pre _ hpre (fun _ => rfl) (fun _ _ _ => rfl)]
    simp [sendSocksResponse_eq]
  · unfold started
    rw [filterMap_handshake _ env pre _ hpre (fun _ => rfl) (fun _ _ _ => rfl)]
    simp [sendSocksResponse_eq]
  · rfl
  · simp only [closes, List.cons_append, List.count_cons, List.count_append,
      count_reads (.close .client) pre hpre rfl]
    simp [hello, sendSocksResponse_eq]
  · simp only [closes, List.cons_append, List.count_cons, List.count_append,
      count_reads (.close .server) pre hpre rfl]
    simp [hello, sendSocksResponse_eq]
  · have e : hello env :: pre
        ++ [.dial "tcp" (serverAddr (decodeRequest [b0, 0x01, b2, b3, b4, b5, b6, b7]))
              CONNECT_TIMEOUT (some err),
            sendSocksResponse .client STATUS_FAILURE env.client.writes, .close .client]
        = (hello env :: pre
            ++ [.dial "tcp" (serverAddr (decodeRequest [b0, 0x01, b2, b3, b4, b5, b6, b7]))
                  CONNECT_TIMEOUT (some err),
                sendSocksResponse .client STATUS_FAILURE env.client.writes])
          ++ [.close .client] := by simp
    simp only [e, getLast_snoc]

/-- Witness of C4: the destination refuses the connection. -/
theorem handleConnection_dial_failure_witness :
    WellFramed exampleRefusedEnv.client.reads [0x04, 0x01, 0x00, 0x50, 0x5d, 0xb8, 0xd8, 0x22]
        [⟨[7, 8], none⟩, ⟨[], some .EOF⟩] ∧
      writesTo .client (handleConnection exampleRefusedEnv []).trace
        = [[0x00, 0x5b, 0, 0, 0, 0, 0, 0]] :=
  ⟨⟨[[0x04, 0x01, 0x00, 0x50, 0x5d, 0xb8, 0xd8, 0x22]], [], rfl, rfl, rfl, by simp, by simp⟩,
    (handleConnection_dial_failure exampleRefusedEnv [] 0x04 0x00 0x50 0x5d 0xb8
      0xd8 0x22 [⟨[7, 8], none⟩, ⟨[], some .EOF⟩] (.other "connection refused")
      ⟨[[0x04, 0x01, 0x00, 0x50, 0x5d, 0xb8, 0xd8, 0x22]], [], rfl, rfl, rfl, by simp, by simp⟩
      rfl).1⟩


/-! ## Closing the connections -/

theorem echoLoop_closes (rd wr c : ConnId) (reads : List ReadResult)
    (writes : Nat → Option GoError) :
    closes c (echoLoop rd wr reads writes).trace
      = if (echoLoop rd wr reads writes).finished = true ∧ c = wr then 1 else 0 := by
  have hc : (echoLoopBody rd wr reads writes).trace.count (.close c) = 0 :=
    List.count_eq_zero.mpr (echoLoopBody_no_close rd wr c reads writes)
  rw [echoLoop_finished]
  unfold closes
  rw [echoLoop_trace, List.count_append, hc]
  cases (echoLoopBody rd wr reads writes).finished with
  | false => simp
  | true =>
    by_cases h : c = wr
    · simp [h]
    · have h' : ¬ wr = c := fun e => h e.symm
      simp [h, List.count_cons, h']

theorem relay_closes_server (env : Env) (server : Transport) (clientReads : List ReadResult)
    (clientWrites : Nat → Option GoError) (sched : List Bool)
    (hdown : (echoLoop .server .client server.reads clientWrites).finished = true)
    (hup : (echoLoop .client .server clientReads server.writes).finished = true) :
    closes .server (relay env server clientReads clientWrites sched).trace = 2 := by
  have h1 := echoLoop_closes .server .client .server server.reads clientWrites
  have h2 := echoLoop_closes .client .server .server clientReads server.writes
  simp only [hdown, hup, true_and, if_true] at h1 h2
  simp only [closes] at h1 h2 ⊢
  rw [relay_trace, List.count_append, List.count_append,
    (interleave_perm _ _ _).count_eq, List.count_append, h1]
  simp [hdown, hup, goodbye, List.count_cons, h2]

theorem relay_returned (env : Env) (server : Transport) (clientReads : List ReadResult)
    (clientWrites : Nat → Option GoError) (sched : List Bool) (err : Option GoError)
    (h : (relay env server clientReads clientWrites sched).outcome = .returned err) :
    (echoLoop .server .client server.reads clientWrites).finished = true
      ∧ (echoLoop .client .server clientReads server.writes).finished = true := by
  rw [relay_outcome] at h
  split at h
  · assumption
  · cases h

theorem not_mem_reads (x : Event) (t : List Event) (ht : ∀ e ∈ t, e.isRead = true)
    (hx : x.isRead = false) : x ∉ t := by
  intro h
  rw [ht x h] at hx
  cases hx

theorem handleConnection_dialed (env : Env) (sched : List Bool)
    (hdial : ∃ network address timeout,
      Event.dial network address timeout none ∈ (handleConnection env sched).trace) :
    ∃ pre server rest address, (∀ e ∈ pre, e.isRead = true) ∧
      handleConnection env sched
        = ⟨hello env :: pre
            ++ [.dial "tcp" address CONNECT_TIMEOUT none,
                sendSocksResponse .client STATUS_SUCCESS env.client.writes]
            ++ (relay env server rest (afterWrite env.client.writes) sched).trace,
          (relay env server rest (afterWrite env.client.writes) sched).outcome⟩ := by
  obtain ⟨network, address, timeout, hmem⟩ := hdial
  have hr1 := binaryRead_reads .client env.client.reads
  have hr2 := readUntilNul_reads .client (binaryRead .client env.client.reads).rest
  have n1 := not_mem_reads (.dial network address timeout none) _ hr1 rfl
  have n2 := not_mem_reads (.dial network address timeout none) _ hr2 rfl
  unfold handleConnection at hmem ⊢
  cases hh : (binaryRead .client env.client.reads).result with
  | none =>
    exfalso
    simp only [hh] at hmem
    simp [n1, hello] at hmem
  | some res =>
    cases res with
    | error e =>
      exfalso
      simp only [hh] at hmem
      simp [n1, hello] at hmem
    | ok request =>
      cases hu : (readUntilNul .client (binaryRead .client env.client.reads).rest).result with
      | none =>
        exfalso
        simp only [hh, hu] at hmem
        simp [n1, n2, hello] at hmem
      | some r =>
        cases r with
        | some e =>
          exfalso
          simp only [hh, hu] at hmem
          simp [n1, n2, hello] at hmem
        | none =>
          by_cases hc : request.Command ≠ COMMAND_STREAM
          · exfalso
            simp only [hh, hu, if_pos hc] at hmem
            simp [n1, n2, hello, sendSocksResponse] at hmem
          · cases hd : env.dial "tcp" (serverAddr request) with
            | error err =>
              exfalso
              simp only [hh, hu, if_neg hc, hd] at hmem
              simp [n1, n2, hello, sendSocksResponse] at hmem
            | ok server =>
              refine ⟨(binaryRead .client env.client.reads).trace
                ++ (readUntilNul .client (binaryRead .client env.client.reads).rest).trace,
                server, (readUntilNul .client (binaryRead .client env.client.reads).rest).rest,
                serverAddr request, ?_, ?_⟩
              · intro e he
                rcases List.mem_append.mp he with he | he
                · exact hr1 e he
                · exact hr2 e he
              · simp only [hh, hu, if_neg hc, hd, hello]
                simp

/-- C9, as stated, fails: in the scenario of the specification the dial
succeeds, `handleConnection` returns, and `Close` has been called twice on the
destination connection, by the relay loop that writes to it and by the
deferred call. -/
theorem exampleEnv_closes_destination_twice :
    dials (handleConnection exampleEnv [true, false]).trace = ["93.184.216.34:80"] ∧
      (handleConnection exampleEnv [true, false]).outcome = .returned none ∧
      closes .server (handleConnection exampleEnv [true, false]).trace = 2 := by
  decide

/-- C9, amended: in every run of `handleConnection` in which the dial succeeds
and which returns, `Close` has been called exactly twice on the destination
connection: once by the relay loop that writes to it, when that loop ends, and
once by the deferred `server.Close()`. -/
theorem handleConnection_closes_destination_twice (env : Env) (sched : List Bool)
    (hdial : ∃ network address timeout,
      Event.dial network address timeout none ∈ (handleConnection env sched).trace)
    (hret : ∃ err, (handleConnection env sched).outcome = .returned err) :
    closes .server (handleConnection env sched).trace = 2 := by
  obtain ⟨pre, server, rest, address, hpre, heq⟩ := handleConnection_dialed env sched hdial
  obtain ⟨err, hret⟩ := hret
  rw [heq] at hret ⊢
  obtain ⟨hdown, hup⟩ := relay_returned env server rest _ sched err hret
  have := relay_closes_server env server rest (afterWrite env.client.writes) sched hdown hup
  simp only [closes] at this ⊢
  rw [List.count_append, this, List.cons_append, List.count_cons, List.count_append,
    count_reads (.close .server) pre hpre rfl]
  simp [hello, sendSocksResponse_eq]

/-- Witness of C9 amended: the scenario of the specification. -/
theorem handleConnection_closes_destination_twice_witness :
    Event.dial "tcp" "93.184.216.34:80" CONNECT_TIMEOUT none
        ∈ (handleConnection exampleEnv []).trace ∧
      (handleConnection exampleEnv []).outcome = .returned none ∧
      closes .server (handleConnection exampleEnv []).trace = 2 :=
  ⟨by decide, by decide,
    handleConnection_closes_destination_twice exampleEnv []
      ⟨"tcp", "93.184.216.34:80", CONNECT_TIMEOUT, by decide⟩ ⟨none, by decide⟩⟩


/-! ## Requests that are cut short -/

theorem readAtLeastLoop_cut (c : ConnId) (min : Nat) (rest : List ReadResult)
    (bad : ReadResult) (e : GoError) (hbad : bad.err = some e) (chunks : List (List Byte))
    (got : List Byte) (hlen : got.length + (chunks.flatten ++ bad.data).length < min) :
    (readAtLeastLoop c min (inChunks chunks ++ bad :: rest) got).result
      = some (got ++ chunks.flatten ++ bad.data, some e) := by
  induction chunks generalizing got with
  | nil =>
    simp only [List.flatten_nil, List.nil_append] at hlen
    have hlt : got.length < min := by omega
    have htake : bad.data.take (min - got.length) = bad.data :=
      List.take_of_length_le (by omega)
    simp [inChunks, readAtLeastLoop, hlt, connRead, hbad, htake]
  | cons d ds ih =>
    simp only [List.flatten_cons, List.length_append] at hlen
    have hlt : got.length < min := by omega
    have htake : d.take (min - got.length) = d := List.take_of_length_le (by omega)
    have ih' := ih (got ++ d) (by simp only [List.length_append]; omega)
    simp only [inChunks] at ih'
    simp [inChunks, readAtLeastLoop, hlt, connRead, htake, ih']

theorem binaryRead_cut (c : ConnId) (chunks : List (List Byte)) (bad : ReadResult)
    (rest : List ReadResult) (hbad : bad.err ≠ none)
    (hlen : (chunks.flatten ++ bad.data).length < 8) :
    ∃ e, (binaryRead c (inChunks chunks ++ bad :: rest)).result = some (.error e) := by
  obtain ⟨e, he⟩ := Option.ne_none_iff_exists'.mp hbad
  have h := readAtLeastLoop_cut c 8 rest bad e he chunks [] (by simpa using hlen)
  have hlen' : ¬ 8 ≤ (chunks.flatten ++ bad.data).length := by omega
  simp only [List.nil_append] at h
  unfold binaryRead readFull
  simp only [h, if_neg hlen']
  by_cases hq : 0 < (chunks.flatten ++ bad.data).length ∧ some e = some GoError.EOF
  · exact ⟨.ErrUnexpectedEOF, by simp only [if_pos hq]⟩
  · exact ⟨e, by simp only [if_neg hq]⟩

theorem readUntilNulLoop_cut (c : ConnId) (rest : List ReadResult) (bad : ReadResult)
    (hbad : bad.err ≠ none ∨ bad.data = []) (u : List Byte) (hu : ∀ b ∈ u, b ≠ 0)
    (ch : Byte) (hch : ch ≠ 0) :
    ∃ e, (readUntilNulLoop c (oneByOne u ++ bad :: rest) ch).result = some (some e) := by
  induction u generalizing ch with
  | nil =>
    cases hb : bad.err with
    | some e => exact ⟨e, by simp [oneByOne, readUntilNulLoop, hch, connRead_err, hb]⟩
    | none =>
      have hd : bad.data = [] := by
        rcases hbad with h | h
        · exact absurd hb h
        · exact h
      exact ⟨.other "Read zero bytes from connection",
        by simp [oneByOne, readUntilNulLoop, hch, connRead, hb, hd]⟩
  | cons b u ih =>
    have hb : b ≠ 0 := hu b (by simp)
    obtain ⟨e, he⟩ := ih (fun x hx => hu x (by simp [hx])) b hb
    simp only [oneByOne] at he
    exact ⟨e, by simp [oneByOne, readUntilNulLoop, hch, connRead, he]⟩

theorem handleConnection_header_error (env : Env) (sched : List Bool) (e : GoError)
    (h : (binaryRead .client env.client.reads).result = some (.error e)) :
    handleConnection env sched
      = ⟨hello env :: (binaryRead .client env.client.reads).trace ++ [.close .client],
          .returned (some e)⟩ := by
  unfold handleConnection
  simp only [h]

theorem handleConnection_user_error (env : Env) (sched : List Bool)
    (request : Socks4ClientRequest) (e : GoError)
    (h : (binaryRead .client env.client.reads).result = some (.ok request))
    (hu : (readUntilNul .client (binaryRead .client env.client.reads).rest).result
      = some (some e)) :
    handleConnection env sched
      = ⟨hello env :: ((binaryRead .client env.client.reads).trace
            ++ (readUntilNul .client (binaryRead .client env.client.reads).rest).trace)
          ++ [.close .client],
          .returned (some e)⟩ := by
  unfold handleConnection
  simp only [h, hu, hello]
  simp

theorem handleConnection_no_response (env : Env) (sched : List Bool) (pre : List Event)
    (e : GoError) (hpre : ∀ x ∈ pre, x.isRead = true)
    (h : handleConnection env sched = ⟨hello env :: pre ++ [.close .client], .returned (some e)⟩) :
    (∃ err, (handleConnection env sched).outcome = .returned (some err)) ∧
      writesTo .client (handleConnection env sched).trace = [] ∧
      dials (handleConnection env sched).trace = [] ∧
      started (handleConnection env sched).trace = [] ∧
      closes .client (handleConnection env sched).trace = 1 ∧
      (handleConnection env sched).trace.getLast? = some (.close .client) := by
  rw [h]
  refine ⟨⟨e, rfl⟩, ?_, ?_, ?_, ?_, ?_⟩
  · unfold writesTo
    rw [filterMap_handshake _ env pre _ hpre (fun _ => rfl) (fun _ _ _ => rfl)]
    simp
  · unfold dials
    rw [filterMap_handshake _ env pre _ hpre (fun _ => rfl) (fun _ _ _ => rfl)]
    simp
  · unfold started
    rw [filterMap_handshake _ env pre _ hpre (fun _ => rfl) (fun _ _ _ => rfl)]
    simp
  · simp only [closes, List.cons_append, List.count_cons, List.count_append,
      count_reads (.close .client) pre hpre rfl]
    simp [hello]
  · have e' : hello env :: pre ++ [Event.close .client]
        = (hello env :: pre) ++ [.close .client] := by simp
    simp only [e', getLast_snoc]

theorem readAtLeastLoop_chunks (c : ConnId) (min : Nat) (tail : List ReadResult)
    (chunks : List (List Byte)) (got : List Byte)
    (hlen : got.length + chunks.flatten.length = min) :
    ∃ empties, (∀ d ∈ empties, d = []) ∧
      (readAtLeastLoop c min (inChunks chunks ++ tail) got).result
        = some (got ++ chunks.flatten, none) ∧
      (readAtLeastLoop c min (inChunks chunks ++ tail) got).rest = inChunks empties ++ tail := by
  induction chunks generalizing got with
  | nil =>
    simp at hlen
    exact ⟨[], by simp, by cases tail <;> simp [inChunks, readAtLeastLoop, hlen]⟩
  | cons d ds ih =>
    simp only [List.flatten_cons, List.length_append] at hlen
    by_cases hlt : got.length < min
    · have htake : d.take (min - got.length) = d := List.take_of_length_le (by omega)
      obtain ⟨empties, he, h1, h2⟩ := ih (got ++ d) (by simp only [List.length_append]; omega)
      simp only [inChunks] at h1 h2
      exact ⟨empties, he, by simp [inChunks, readAtLeastLoop, hlt, connRead, htake, h1, h2]⟩
    · have hd : d = [] := List.length_eq_zero.mp (by omega)
      have hds : ds.flatten = [] := List.length_eq_zero.mp (by omega)
      refine ⟨d :: ds, ?_, ?_, ?_⟩
      · intro x hx
        rcases List.mem_cons.mp hx with hx | hx
        · rw [hx, hd]
        · exact List.flatten_eq_nil_iff.mp hds x hx
      · simp [inChunks, readAtLeastLoop, hlt, hd, hds]
      · simp [inChunks, readAtLeastLoop, hlt]

theorem readUntilNulLoop_cut_after (c : ConnId) (rest : List ReadResult) (bad : ReadResult)
    (hbad : bad.err ≠ none ∨ bad.data = []) (u : List Byte) (hu : ∀ b ∈ u, b ≠ 0)
    (empties : List (List Byte)) (he : ∀ d ∈ empties, d = []) :
    ∃ e, (readUntilNul c (inChunks empties ++ (oneByOne u ++ bad :: rest))).result
      = some (some e) := by
  unfold readUntilNul
  cases empties with
  | nil => exact readUntilNulLoop_cut c rest bad hbad u hu 1 (by decide)
  | cons d ds =>
    have hd : d = [] := he d (by simp)
    exact ⟨.other "Read zero bytes from connection",
      by simp [inChunks, readUntilNulLoop, connRead, hd]⟩

/-- C5: when the client stream ends or errors before 8 header bytes are read,
or ends, errors or yields a zero-byte read before the NUL of the user id is
read, `handleConnection` returns an error, makes no `Write` on the client
connection, dials nothing, starts no relay loop, and closes the client
connection, once, as its last call. -/
theorem handleConnection_malformed_request (env : Env) (sched : List Bool)
    (h : Truncated env.client.reads) :
    (∃ err, (handleConnection env sched).outcome = .returned (some err)) ∧
      writesTo .client (handleConnection env sched).trace = [] ∧
      dials (handleConnection env sched).trace = [] ∧
      started (handleConnection env sched).trace = [] ∧
      closes .client (handleConnection env sched).trace = 1 ∧
      (handleConnection env sched).trace.getLast? = some (.close .client) := by
  rcases h with ⟨chunks, bad, rest, hreads, hbad, hlen⟩ | ⟨chunks, u, bad, rest, hreads, hlen,
    hu, hbad⟩
  · obtain ⟨e, he⟩ := binaryRead_cut .client chunks bad rest hbad hlen
    rw [← hreads] at he
    exact handleConnection_no_response env sched _ e (binaryRead_reads _ _)
      (handleConnection_header_error env sched e he)
  · have hf : env.client.reads = inChunks chunks ++ (oneByOne u ++ bad :: rest) := by
      rw [hreads]; simp
    obtain ⟨empties, hem, hb1, hb2⟩ :=
      readAtLeastLoop_chunks .client 8 (oneByOne u ++ bad :: rest) chunks [] (by simpa using hlen)
    rw [← hf] at hb1 hb2
    have hres : (binaryRead .client env.client.reads).result
        = some (.ok (decodeRequest chunks.flatten)) := by
      unfold binaryRead readFull
      simp [hb1, hlen]
    have hrest : (binaryRead .client env.client.reads).rest
        = inChunks empties ++ (oneByOne u ++ bad :: rest) := by
      unfold binaryRead
      simp only
      split <;> simp [readFull_rest, hb2]
    obtain ⟨e, he⟩ := readUntilNulLoop_cut_after .client rest bad hbad u hu empties hem
    have hures : (readUntilNul .client (binaryRead .client env.client.reads).rest).result
        = some (some e) := by
      rw [hrest]; exact he
    refine handleConnection_no_response env sched _ e ?_
      (handleConnection_user_error env sched _ e hres hures)
    intro x hx
    rcases List.mem_append.mp hx with hx | hx
    · exact binaryRead_reads _ _ x hx
    · exact readUntilNul_reads _ _ x hx

/-- Witness of C5: the client closes the connection inside the user id, after
the header and the bytes `AB`; nothing is written to it and nothing dialed. -/
theorem handleConnection_malformed_request_witness :
    Truncated exampleCutEnv.client.reads ∧
      (handleConnection exampleCutEnv []).outcome = .returned (some .EOF) ∧
      writesTo .client (handleConnection exampleCutEnv []).trace = [] ∧
      dials (handleConnection exampleCutEnv []).trace = [] :=
  ⟨Or.inr ⟨[[0x04, 0x01, 0x00, 0x50, 0x5d, 0xb8, 0xd8, 0x22]], [65, 66], ⟨[], some .EOF⟩, [],
      rfl, rfl, by simp, Or.inl (by simp)⟩,
    by decide,
    (handleConnection_malformed_request exampleCutEnv []
      (Or.inr ⟨[[0x04, 0x01, 0x00, 0x50, 0x5d, 0xb8, 0xd8, 0x22]], [65, 66], ⟨[], some .EOF⟩, [],
        rfl, rfl, by simp, Or.inl (by simp)⟩)).2.1,
    (handleConnection_malformed_request exampleCutEnv []
      (Or.inr ⟨[[0x04, 0x01, 0x00, 0x50, 0x5d, 0xb8, 0xd8, 0x22]], [65, 66], ⟨[], some .EOF⟩, [],
        rfl, rfl, by simp, Or.inl (by simp)⟩)).2.2.1⟩

/-- C6, as stated, fails: when the write of the SUCCESS response fails,
`handleConnection` still starts both relay loops, and returns `nil` when they
have finished. -/
theorem exampleDeafEnv_starts_relay :
    Event.write .client [0x00, 0x5a, 0, 0, 0, 0, 0, 0] (some (.other "broken pipe"))
        ∈ (handleConnection exampleDeafEnv [true, false]).trace ∧
      started (handleConnection exampleDeafEnv [true, false]).trace
        = [(.server, .client), (.client, .server)] ∧
      (handleConnection exampleDeafEnv [true, false]).outcome = .returned none := by
  decide

/-- C6, amended: for a well-framed request with command byte 0x01 whose dial
succeeds, when the write of the SUCCESS response fails, `handleConnection`
drops the error: it starts both relay loops all the same, and when both have
finished it has closed the destination connection and returns `nil`. -/
theorem handleConnection_ignores_failed_response (env : Env) (sched : List Bool)
    (b0 b2 b3 b4 b5 b6 b7 : Byte) (rest : List ReadResult) (server : Transport) (e : GoError)
    (h : WellFramed env.client.reads [b0, 0x01, b2, b3, b4, b5, b6, b7] rest)
    (hd : env.dial "tcp" (serverAddr (decodeRequest [b0, 0x01, b2, b3, b4, b5, b6, b7]))
      = .ok server)
    (hw : env.client.writes 0 = some e) :
    Event.write .client [0x00, 0x5a, 0, 0, 0, 0, 0, 0] (some e)
        ∈ (handleConnection env sched).trace ∧
      started (handleConnection env sched).trace = [(.server, .client), (.client, .server)] ∧
      ((echoLoop .server .client server.reads (afterWrite env.client.writes)).finished = true →
        (echoLoop .client .server rest server.writes).finished = true →
        (handleConnection env sched).outcome = .returned none ∧
          0 < closes .server (handleConnection env sched).trace) := by
  obtain ⟨pre, hpre, heq⟩ := handleConnection_framed env sched _ rest h
  rw [hd] at heq
  have hcmd : (decodeRequest [b0, 0x01, b2, b3, b4, b5, b6, b7]).Command = COMMAND_STREAM := rfl
  simp only [hcmd, ne_eq, not_true_eq_false, if_false] at heq
  rw [heq]
  refine ⟨?_, ?_, ?_⟩
  · simp [sendSocksResponse_eq, responseBytes, STATUS_SUCCESS, hw]
  · have := relay_started env server rest (afterWrite env.client.writes) sched
    unfold started at this ⊢
    rw [List.append_assoc, filterMap_handshake _ env pre _ hpre (fun _ => rfl)
      (fun _ _ _ => rfl), List.filterMap_append, this]
    simp [sendSocksResponse_eq]
  · intro h1 h2
    refine ⟨by rw [relay_outcome]; simp [h1, h2], ?_⟩
    have := relay_closes_server env server rest (afterWrite env.client.writes) sched h1 h2
    simp only [closes] at this ⊢
    rw [List.count_append, this]
    omega

/-- Witness of C6 amended: the scenario with the first `Write` to the client
failing. -/
theorem handleConnection_ignores_failed_response_witness :
    WellFramed exampleDeafEnv.client.reads [0x04, 0x01, 0x00, 0x50, 0x5d, 0xb8, 0xd8, 0x22]
        [⟨[7, 8], none⟩, ⟨[], some .EOF⟩] ∧
      exampleDeafEnv.client.writes 0 = some (.other "broken pipe") ∧
      started (handleConnection exampleDeafEnv []).trace
        = [(.server, .client), (.client, .server)] :=
  ⟨⟨[[0x04, 0x01, 0x00, 0x50, 0x5d, 0xb8, 0xd8, 0x22]], [], rfl, rfl, rfl, by simp, by simp⟩,
    rfl,
    (handleConnection_ignores_failed_response exampleDeafEnv [] 0x04 0x00 0x50 0x5d 0xb8 0xd8
      0x22 [⟨[7, 8], none⟩, ⟨[], some .EOF⟩] exampleServer (.other "broken pipe")
      ⟨[[0x04, 0x01, 0x00, 0x50, 0x5d, 0xb8, 0xd8, 0x22]], [], rfl, rfl, rfl, by simp, by simp⟩
      rfl rfl).2.1⟩

end SocksProxy
